import Mathlib

/-!
Verification of the `kind-config` configuration container (`src/src/lib.rs`).

The Rust library provides a runtime kind-checked configuration `Form`: a map
from parameter names to `Parameter { value, about, frozen }`, where `value`
is a tagged union over bool / i64 / f64 / String.  This file is a shallow
embedding of that library:

* `HashMap<String, _>` is modelled as an association list with unique keys;
  the list order stands for the hash map's (unspecified) iteration order, and
  theorems that depend on key uniqueness carry a `Nodup` hypothesis, which is
  an invariant of the Rust `HashMap`.
* `i64` payloads are modelled as `Int` (no claim exercises 64-bit overflow;
  the int parser checks the 64-bit range exactly as Rust's does).
* `f64` payloads are modelled by `F64`: either `nan` or an exact rational.
  The merge protocol uses only IEEE `==` on floats, whose one observable
  quirk is `NaN != NaN`; `F64.beq` reproduces it.  Signed zeros and
  infinities are identified with ordinary rationals / omitted, since no
  claim below depends on them.
* Fallible Rust functions returning `Result<T, ConfigError>` become
  `Except ConfigError T`.
-/

instance {ε α : Type} [DecidableEq ε] [DecidableEq α] :
    DecidableEq (Except ε α) := fun x y =>
  match x, y with
  | .ok a, .ok b =>
    if h : a = b then isTrue (by rw [h])
    else isFalse (by intro hc; cases hc; exact h rfl)
  | .error a, .error b =>
    if h : a = b then isTrue (by rw [h])
    else isFalse (by intro hc; cases hc; exact h rfl)
  | .ok _, .error _ => isFalse (by intro hc; cases hc)
  | .error _, .ok _ => isFalse (by intro hc; cases hc)

/-- Modelled: the payload of `Value::F(f64)`.  Either NaN or an exact finite
rational.  Only `==` on floats is used by the library's merge protocol. -/
inductive F64 where
  | nan : F64
  | fin : ℚ → F64
deriving DecidableEq

/-- IEEE `==` on the float model: `NaN == x` is false for every `x`. -/
def F64.beq : F64 → F64 → Bool
  | .fin a, .fin b => a == b
  | _, _ => false

/-- Rust `enum Value { B(bool), I(i64), F(f64), S(String) }`. -/
inductive Value where
  | B : Bool → Value
  | I : Int → Value
  | F : F64 → Value
  | S : String → Value
deriving DecidableEq

/-- The four kinds a `Value` can have (used to state kind-preservation). -/
inductive Kind where
  | KB : Kind
  | KI : Kind
  | KF : Kind
  | KS : Kind
deriving DecidableEq

/-- The tag of a `Value`. -/
def Value.kind : Value → Kind
  | .B _ => .KB
  | .I _ => .KI
  | .F _ => .KF
  | .S _ => .KS

/-- Rust `Value::same_kind_as` (lib.rs:24-32): tags match, payloads ignored. -/
def Value.same_kind_as : Value → Value → Bool
  | .B _, .B _ => true
  | .I _, .I _ => true
  | .F _, .F _ => true
  | .S _, .S _ => true
  | _, _ => false

/-- Rust `Value::same_as` (lib.rs:34-42): tags match and payloads are `==`.
For floats this is IEEE equality, so `F nan` is not `same_as` itself. -/
def Value.same_as : Value → Value → Bool
  | .B a, .B b => a == b
  | .I a, .I b => a == b
  | .F a, .F b => a.beq b
  | .S a, .S b => a == b
  | _, _ => false

/-- Rust `struct ConfigError { key, why }` (lib.rs:77-81). -/
structure ConfigError where
  key : String
  why : String
deriving DecidableEq

/-- Rust `struct Parameter { value, about, frozen }` (lib.rs:104-109). -/
structure Parameter where
  value : Value
  about : String
  frozen : Bool
deriving DecidableEq

/-- Rust `struct Form { parameter_map: HashMap<String, Parameter> }`
(lib.rs:119-121), the hash map modelled as an association list. -/
structure Form where
  parameter_map : List (String × Parameter)
deriving DecidableEq

/-- Lookup in an association list: the model of `HashMap::get`. -/
def lookupKV {α : Type} : List (String × α) → String → Option α
  | [], _ => none
  | (k1, v1) :: rest, k => if k1 = k then some v1 else lookupKV rest k

/-- The keys of an association list. -/
def keysOf {α : Type} (m : List (String × α)) : List String :=
  m.map Prod.fst

/-- Rewrite the entry stored under key `k` (model of `HashMap::get_mut`
followed by a field assignment): every entry keyed `k` is rewritten by `g`,
all other entries are untouched. -/
def mapAt {α : Type} (m : List (String × α)) (k : String) (g : α → α) :
    List (String × α) :=
  m.map (fun kv => if kv.1 = k then (kv.1, g kv.2) else kv)

/-- Model of `HashMap::insert`: replace the value under `k` if present
(keeping the entry's position), otherwise add a new entry. -/
def insertKV {α : Type} (m : List (String × α)) (k : String) (v : α) :
    List (String × α) :=
  match lookupKV m k with
  | some _ => m.map (fun kv => if kv.1 = k then (kv.1, v) else kv)
  | none => m ++ [(k, v)]

/-- Rust `Form::new` (lib.rs:132-134). -/
def Form.new : Form := ⟨[]⟩

/-- Rust `Form::item` (lib.rs:146-149): declare or replace a parameter,
`frozen = false`. -/
def Form.item (f : Form) (k : String) (v : Value) (ab : String) : Form :=
  ⟨insertKV f.parameter_map k ⟨v, ab, false⟩⟩

/-- The in-place value update `item.value = new_value.clone()` performed by
`merge_value_map` (lib.rs:187). -/
def Form.setValue (f : Form) (k : String) (v : Value) : Form :=
  ⟨mapAt f.parameter_map k (fun p => { p with value := v })⟩

/-- The in-place flag update `…unwrap().frozen = true` (lib.rs:164, 238). -/
def Form.setFrozen (f : Form) (k : String) : Form :=
  ⟨mapAt f.parameter_map k (fun p => { p with frozen := true })⟩

/-- Rust `Form::freeze` (lib.rs:236-240).  The Rust function panics when the
key is undeclared (a contract violation per the spec); the model is a no-op
there, and every theorem using `freeze` supplies a declared key. -/
def Form.freeze (f : Form) (k : String) : Form :=
  f.setFrozen k

/-- Rust `Form::merge_value_map` (lib.rs:179-194), the hash-map iteration
order made explicit as the list order. -/
def Form.merge_value_map (f : Form) :
    List (String × Value) → Except ConfigError Form
  | [] => .ok f
  | (k, v) :: rest =>
    match lookupKV f.parameter_map k with
    | some p =>
      if ! p.value.same_kind_as v then
        .error ⟨k, "has the wrong type"⟩
      else if p.frozen && ! p.value.same_as v then
        .error ⟨k, "cannot be modified"⟩
      else
        (f.setValue k v).merge_value_map rest
    | none => .error ⟨k, "is not a valid key"⟩

/-- One step of the freeze loop in `merge_value_map_freezing`
(lib.rs:162-166): freeze `k` only if it occurs in `items`. -/
def freezeStep (items : List (String × Value)) (g : Form) (k : String) :
    Form :=
  if (lookupKV items k).isSome then g.setFrozen k else g

/-- Rust `Form::merge_value_map_freezing` (lib.rs:160-168). -/
def Form.merge_value_map_freezing (f : Form) (items : List (String × Value))
    (to_freeze : List String) : Except ConfigError Form :=
  match f.merge_value_map items with
  | .error e => .error e
  | .ok r => .ok (to_freeze.foldl (freezeStep items) r)

/-- Rust `"…".parse::<bool>()`: exactly the strings `"true"` and `"false"`
are accepted, case-sensitively. -/
def parseBool (s : String) : Option Bool :=
  if s = "true" then some true
  else if s = "false" then some false
  else none

/-- Digits of a decimal literal folded to a natural number. -/
def digitsToNat (ds : List Char) : Nat :=
  ds.foldl (fun a c => a * 10 + (c.toNat - 48)) 0

/-- Rust `"…".parse::<i64>()`: an optional sign, then one or more ASCII
digits, and the value must fit in 64 signed bits. -/
def parseI64 (s : String) : Option Int :=
  let (sg, ds) : Int × List Char :=
    match s.data with
    | '+' :: rest => (1, rest)
    | '-' :: rest => (-1, rest)
    | rest => (1, rest)
  if ds ≠ [] ∧ ds.all Char.isDigit then
    let v : Int := sg * (digitsToNat ds : Int)
    if -(2 ^ 63) ≤ v ∧ v < 2 ^ 63 then some v else none
  else none

/-- Modelled: Rust `"…".parse::<f64>()`, abstracted to the rational float
model: `"NaN"` parses to `F64.nan`, and an optionally signed decimal literal
with an optional fractional part parses to the exact rational it denotes.
(Exponents, infinities and rounding are omitted: no claim settled in this
file depends on this definition's details.) -/
def parseF64 (s : String) : Option F64 :=
  if s = "NaN" then some F64.nan
  else
    let (sg, ds) : ℚ × List Char :=
      match s.data with
      | '+' :: rest => (1, rest)
      | '-' :: rest => (-1, rest)
      | rest => (1, rest)
    match ds.splitOn '.' with
    | [intPart] =>
      if intPart ≠ [] ∧ intPart.all Char.isDigit then
        some (F64.fin (sg * (digitsToNat intPart : ℚ)))
      else none
    | [intPart, fracPart] =>
      if intPart ≠ [] ∧ intPart.all Char.isDigit ∧ fracPart ≠ [] ∧
          fracPart.all Char.isDigit then
        some (F64.fin (sg * ((digitsToNat intPart : ℚ) +
          (digitsToNat fracPart : ℚ) / (10 : ℚ) ^ fracPart.length)))
      else none
    | _ => none

/-- The per-pair parse in `Form::string_map_to_value_map` (lib.rs:300-305):
the stored value selects the kind, and the raw string is parsed to it.  The
`String` arm is Rust's infallible `parse::<String>()`. -/
def Form.parseForKey (p : Parameter) (k v : String) :
    Except ConfigError Value :=
  match p.value with
  | .B _ =>
    match parseBool v with
    | some x => .ok (.B x)
    | none => .error ⟨k, "is a badly formed bool"⟩
  | .I _ =>
    match parseI64 v with
    | some x => .ok (.I x)
    | none => .error ⟨k, "is a badly formed int"⟩
  | .F _ =>
    match parseF64 v with
    | some x => .ok (.F x)
    | none => .error ⟨k, "is a badly formed float"⟩
  | .S _ => .ok (.S v)

/-- Rust `Form::string_map_to_value_map` (lib.rs:293-309), the result map
built in iteration order. -/
def Form.string_map_to_value_map (f : Form) :
    List (String × String) → Except ConfigError (List (String × Value))
  | [] => .ok []
  | (k, v) :: rest =>
    match lookupKV f.parameter_map k with
    | none => .error ⟨k, "is not a valid key"⟩
    | some p =>
      match Form.parseForKey p k v with
      | .error e => .error e
      | .ok value =>
        match f.string_map_to_value_map rest with
        | .error e => .error e
        | .ok items => .ok ((k, value) :: items)

/-- Rust `Form::merge_string_map` (lib.rs:205-208). -/
def Form.merge_string_map (f : Form) (dict : List (String × String)) :
    Except ConfigError Form :=
  match f.string_map_to_value_map dict with
  | .error e => .error e
  | .ok items => f.merge_value_map items

/-- Rust `Form::value_map` (lib.rs:247-249): values only, descriptions and
frozen flags stripped. -/
def Form.value_map (f : Form) : List (String × Value) :=
  f.parameter_map.map (fun kv => (kv.1, kv.2.value))

/-- Rust `Form::get` (lib.rs:281-283), made total with `Option` (Rust panics
on an undeclared key). -/
def Form.valueOf (f : Form) (k : String) : Option Value :=
  (lookupKV f.parameter_map k).map (·.value)

/-- Rust `Form::about` (lib.rs:285-287), made total with `Option`. -/
def Form.aboutOf (f : Form) (k : String) : Option String :=
  (lookupKV f.parameter_map k).map (·.about)

/-- Rust `Form::is_frozen` (lib.rs:289-291), made total with `Option`. -/
def Form.frozenOf (f : Form) (k : String) : Option Bool :=
  (lookupKV f.parameter_map k).map (·.frozen)

/-- The declared kind of a key. -/
def Form.kindOf (f : Form) (k : String) : Option Kind :=
  (lookupKV f.parameter_map k).map (fun p => p.value.kind)

/-- Rust `char`-split on `'='` as used by `left_and_right_hand_side`
(lib.rs:330): `n` separators yield `n + 1` (possibly empty) pieces. -/
def splitEqAux : List Char → List Char → List String
  | [], cur => [String.mk cur.reverse]
  | c :: rest, cur =>
    if c = '=' then String.mk cur.reverse :: splitEqAux rest []
    else splitEqAux rest (c :: cur)

/-- Rust `a.split('=').collect::<Vec<_>>()`. -/
def splitEq (a : String) : List String :=
  splitEqAux a.data []

/-- Rust `left_and_right_hand_side` (lib.rs:329-336): accept exactly a
two-piece split (the pieces may be empty). -/
def left_and_right_hand_side (a : String) :
    Except ConfigError (String × String) :=
  match splitEq a with
  | [l, r] => .ok (l, r)
  | _ => .error ⟨a, "is a badly formed argument"⟩

/-- The loop of `to_string_map_from_key_val_pairs_general` (lib.rs:337-346),
with the result map accumulated explicitly. -/
def toStringMapAux (allow_duplicates : Bool) :
    List String → List (String × String) →
    Except ConfigError (List (String × String))
  | [], result => .ok result
  | arg :: rest, result =>
    match left_and_right_hand_side arg with
    | .error e => .error e
    | .ok (k, v) =>
      if !allow_duplicates && (lookupKV result k).isSome then
        .error ⟨k, "duplicate parameter"⟩
      else
        toStringMapAux allow_duplicates rest (insertKV result k v)

/-- Rust `to_string_map_from_key_val_pairs_general` (lib.rs:328-347). -/
def to_string_map_from_key_val_pairs_general (args : List String)
    (allow_duplicates : Bool) : Except ConfigError (List (String × String)) :=
  toStringMapAux allow_duplicates args []

/-- Rust `to_string_map_from_key_val_pairs` (lib.rs:349-351). -/
def to_string_map_from_key_val_pairs (args : List String) :
    Except ConfigError (List (String × String)) :=
  to_string_map_from_key_val_pairs_general args false

/-- Rust `to_string_map_from_key_val_pairs_allowing_duplicates`
(lib.rs:353-355). -/
def to_string_map_from_key_val_pairs_allowing_duplicates
    (args : List String) : Except ConfigError (List (String × String)) :=
  to_string_map_from_key_val_pairs_general args true

/-! ### Spec-side description of the merge protocol (refinement target) -/

/-- Follows the spec's words (the refinement target for C1): the outcome of a
single (key, new value) pair checked against the pre-merge form.  `none`
means the pair is stored; `some e` is the error it fails with: "is not a
valid key" for an undeclared key, then "has the wrong type" for a kind
mismatch, then "cannot be modified" for a frozen parameter receiving a value
that is not `same_as` the stored one. -/
def specPairError (f : Form) (k : String) (v : Value) : Option ConfigError :=
  match lookupKV f.parameter_map k with
  | none => some ⟨k, "is not a valid key"⟩
  | some p =>
    if ! p.value.same_kind_as v then some ⟨k, "has the wrong type"⟩
    else if p.frozen && ! p.value.same_as v then some ⟨k, "cannot be modified"⟩
    else none

/-- Store every update unconditionally, in order. -/
def Form.applyUpdates (f : Form) (items : List (String × Value)) : Form :=
  items.foldl (fun g kv => g.setValue kv.1 kv.2) f

/-- Follows the spec's words (the refinement target for C1): fail with the
first failing pair's error, otherwise store every pair; the merge returns a
`Form` exactly when no pair fails. -/
def specMerge (f : Form) (items : List (String × Value)) :
    Except ConfigError Form :=
  match items.find? (fun kv => (specPairError f kv.1 kv.2).isSome) with
  | some kv => .error ((specPairError f kv.1 kv.2).getD ⟨"", ""⟩)
  | none => .ok (f.applyUpdates items)

/-- The keys successfully parsed out of an argument list, in order. -/
def parsedKeys (args : List String) : List String :=
  (args.filterMap (fun a => (left_and_right_hand_side a).toOption)).map
    Prod.fst

/-- The value of the last `key=value` occurrence of `k` in `args` (the
binding a duplicate-tolerant parse must produce). -/
def lastAssignment (args : List String) (k : String) : Option String :=
  (args.filterMap (fun a => (left_and_right_hand_side a).toOption)).foldl
    (fun st kv => if kv.1 = k then some kv.2 else st) none

/-- The example form of the repository's tests (lib.rs:413-420). -/
def make_example_form : Form :=
  (((((Form.new.item "num_zones" (Value.I 5000)
    "Number of grid cells to use").item
    "tfinal" (Value.F (F64.fin (2 / 10)))
    "Time at which to stop the simulation").item
    "rk_order" (Value.I 2) "Runge-Kutta time integration order").item
    "quiet" (Value.B false) "Suppress the iteration message").item
    "outdir" (Value.S "data") "Directory where output data is written")

/-- A small two-parameter fixture used by the witnesses. -/
def fixtureForm : Form :=
  (Form.new.item "a" (Value.I 1) "first").item "b" (Value.B false) "second"

/-- The `fixtureForm` after merging `a := 2`. -/
def fixtureFormMerged : Form :=
  ⟨[("a", ⟨Value.I 2, "first", false⟩), ("b", ⟨Value.B false, "second", false⟩)]⟩

/-- A form holding a single frozen float parameter whose value is NaN. -/
def nanForm : Form :=
  (Form.new.item "x" (Value.F F64.nan) "a float").freeze "x"

/-! ### Basic facts about `Value` and the float model -/

theorem F64.eq_of_beq {a b : F64} (h : a.beq b = true) : a = b := by
  cases a <;> cases b <;> simp_all [F64.beq]

theorem Value.same_kind_as_refl (v : Value) : v.same_kind_as v = true := by
  cases v <;> rfl

theorem Value.same_kind_as_iff_kind {a b : Value} :
    a.same_kind_as b = true ↔ a.kind = b.kind := by
  cases a <;> cases b <;> simp [Value.same_kind_as, Value.kind]

theorem Value.eq_of_same_as {a b : Value} (h : a.same_as b = true) : a = b := by
  cases a <;> cases b <;> simp_all [Value.same_as]
  exact F64.eq_of_beq h

/-! ### Association-list lemmas -/

theorem lookupKV_cons {α : Type} (k1 : String) (v1 : α)
    (rest : List (String × α)) (k : String) :
    lookupKV ((k1, v1) :: rest) k =
      if k1 = k then some v1 else lookupKV rest k := rfl

theorem lookupKV_mapAt {α : Type} (m : List (String × α)) (k k' : String)
    (g : α → α) :
    lookupKV (mapAt m k g) k' =
      if k' = k then (lookupKV m k').map g else lookupKV m k' := by
  induction m with
  | nil => by_cases h : k' = k <;> simp [mapAt, lookupKV, h]
  | cons kv rest ih =>
    obtain ⟨k1, v1⟩ := kv
    have hcons : mapAt ((k1, v1) :: rest) k g =
        (if k1 = k then (k1, g v1) else (k1, v1)) :: mapAt rest k g := by
      simp [mapAt]
    rw [hcons]
    by_cases h1 : k1 = k
    · rw [if_pos h1]
      by_cases h2 : k1 = k'
      · have hk : k' = k := h2 ▸ h1
        simp [lookupKV_cons, h2, hk]
      · simp [lookupKV_cons, h2, ih]
    · rw [if_neg h1]
      by_cases h2 : k1 = k'
      · have hk : ¬ k' = k := fun he => h1 (h2.symm ▸ he)
        simp [lookupKV_cons, h2, hk]
      · simp [lookupKV_cons, h2, ih]

theorem keysOf_mapAt {α : Type} (m : List (String × α)) (k : String)
    (g : α → α) : keysOf (mapAt m k g) = keysOf m := by
  induction m with
  | nil => rfl
  | cons kv rest ih =>
    by_cases h : kv.1 = k
    · simp [mapAt, keysOf, h]
      simpa [mapAt, keysOf] using ih
    · simp [mapAt, keysOf, h]
      simpa [mapAt, keysOf] using ih

theorem lookupKV_eq_none_iff {α : Type} (m : List (String × α)) (k : String) :
    lookupKV m k = none ↔ k ∉ keysOf m := by
  induction m with
  | nil => simp [lookupKV, keysOf]
  | cons kv rest ih =>
    obtain ⟨k1, v1⟩ := kv
    by_cases h : k1 = k
    · simp [lookupKV, keysOf, h, ih]
    · simp [lookupKV, keysOf, h, ih]
      tauto

theorem mem_keysOf_of_lookupKV {α : Type} {m : List (String × α)} {k : String}
    {v : α} (h : lookupKV m k = some v) : k ∈ keysOf m := by
  by_contra hmem
  rw [← lookupKV_eq_none_iff] at hmem
  rw [h] at hmem
  cases hmem

theorem lookupKV_of_mem_nodup {α : Type} {m : List (String × α)}
    (hnd : (keysOf m).Nodup) {k : String} {v : α} (h : (k, v) ∈ m) :
    lookupKV m k = some v := by
  induction m with
  | nil => cases h
  | cons kv rest ih =>
    obtain ⟨k1, v1⟩ := kv
    rw [keysOf, List.map_cons, List.nodup_cons] at hnd
    rcases List.mem_cons.mp h with he | hm
    · rw [Prod.mk.injEq] at he
      obtain ⟨hk, hv⟩ := he
      subst hk
      subst hv
      simp [lookupKV]
    · have hkmem : k ∈ keysOf rest := List.mem_map_of_mem Prod.fst hm
      have hne : k1 ≠ k := by
        intro he2
        subst he2
        exact hnd.1 (by simpa [keysOf] using hkmem)
      rw [lookupKV_cons, if_neg hne]
      exact ih hnd.2 hm

theorem mapAt_eq_of_not_mem {α : Type} {m : List (String × α)} {k : String}
    (g : α → α) (h : k ∉ keysOf m) : mapAt m k g = m := by
  induction m with
  | nil => rfl
  | cons kv rest ih =>
    rw [keysOf, List.map_cons, List.mem_cons] at h
    push_neg at h
    have h1 : kv.1 ≠ k := fun he => h.1 he.symm
    simp [mapAt, h1]
    simpa [mapAt, keysOf] using ih h.2

theorem mapAt_eq_self_of_nodup {α : Type} {m : List (String × α)}
    (hnd : (keysOf m).Nodup) (k : String) (g : α → α)
    (h : ∀ v, lookupKV m k = some v → g v = v) : mapAt m k g = m := by
  induction m with
  | nil => rfl
  | cons kv rest ih =>
    obtain ⟨k1, v1⟩ := kv
    rw [keysOf, List.map_cons, List.nodup_cons] at hnd
    by_cases h1 : k1 = k
    · subst h1
      have hv : g v1 = v1 := h v1 (by simp [lookupKV])
      have htail : mapAt rest k1 g = rest :=
        mapAt_eq_of_not_mem g hnd.1
      simp [mapAt, hv]
      simpa [mapAt] using htail
    · have htail : mapAt rest k g = rest := by
        apply ih hnd.2
        intro v hv
        apply h
        simpa [lookupKV, h1] using hv
      simp [mapAt, h1]
      simpa [mapAt] using htail

theorem insertKV_of_not_found {α : Type} {m : List (String × α)} {k : String}
    (v : α) (h : lookupKV m k = none) : insertKV m k v = m ++ [(k, v)] := by
  unfold insertKV
  rw [h]

theorem lookupKV_append_single {α : Type} (m : List (String × α))
    (k k' : String) (v : α) (h : lookupKV m k = none) :
    lookupKV (m ++ [(k, v)]) k' =
      if k' = k then some v else lookupKV m k' := by
  induction m with
  | nil =>
    by_cases hk : k' = k <;> simp [lookupKV, hk]
    · intro he
      exact hk he.symm
  | cons kv rest ih =>
    obtain ⟨k1, v1⟩ := kv
    have h1 : k1 ≠ k := by
      intro he
      rw [lookupKV, if_pos he] at h
      cases h
    have hrest : lookupKV rest k = none := by
      rwa [lookupKV, if_neg h1] at h
    by_cases h2 : k1 = k' <;> by_cases hk : k' = k <;>
      simp [lookupKV, h1, h2, hk, ih hrest] <;> simp_all

theorem lookupKV_insertKV {α : Type} (m : List (String × α)) (k k' : String)
    (v : α) :
    lookupKV (insertKV m k v) k' =
      if k' = k then some v else lookupKV m k' := by
  unfold insertKV
  cases h : lookupKV m k with
  | none => exact lookupKV_append_single m k k' v h
  | some w =>
    have : (m.map fun kv => if kv.1 = k then (kv.1, v) else kv) =
        mapAt m k (fun _ => v) := rfl
    rw [this, lookupKV_mapAt]
    by_cases hk : k' = k <;> simp [hk, h]

theorem find?_congr_mem {α : Type} {p q : α → Bool} :
    ∀ {l : List α}, (∀ x ∈ l, p x = q x) → l.find? p = l.find? q := by
  intro l
  induction l with
  | nil => intro _; rfl
  | cons a l ih =>
    intro h
    have ha : p a = q a := h a (List.mem_cons_self a l)
    cases hq : q a with
    | true =>
      rw [List.find?_cons_of_pos _ (ha ▸ hq), List.find?_cons_of_pos _ hq]
    | false =>
      rw [List.find?_cons_of_neg _ (by simp [ha, hq]),
        List.find?_cons_of_neg _ (by simp [hq])]
      exact ih fun x hx => h x (List.mem_cons_of_mem a hx)

theorem count_pos_of_mem {α : Type} [DecidableEq α] {a : α} :
    ∀ {l : List α}, a ∈ l → 1 ≤ l.count a := by
  intro l
  induction l with
  | nil => intro h; cases h
  | cons b l ih =>
    intro h
    rcases List.mem_cons.mp h with h | h
    · subst h
      simp [List.count_cons_self]
    · calc 1 ≤ l.count a := ih h
        _ ≤ (b :: l).count a := by
          rw [List.count_cons]
          omega

theorem specPairError_setValue {f : Form} {k : String} {v : Value}
    (k' : String) (v' : Value) (hne : k' ≠ k) :
    specPairError (f.setValue k v) k' v' = specPairError f k' v' := by
  unfold specPairError
  rw [show (f.setValue k v).parameter_map =
    mapAt f.parameter_map k (fun p => { p with value := v }) from rfl]
  rw [lookupKV_mapAt, if_neg hne]

/-- The merge loop of the source equals the spec's per-pair description, for
any update map (a map's keys are distinct, hence the `Nodup` hypothesis). -/
theorem merge_value_map_eq_specMerge :
    ∀ (items : List (String × Value)) (f : Form),
      (items.map Prod.fst).Nodup →
      f.merge_value_map items = specMerge f items := by
  intro items
  induction items with
  | nil => intro f _; rfl
  | cons kv rest ih =>
    intro f hnd
    obtain ⟨k, v⟩ := kv
    rw [List.map_cons, List.nodup_cons] at hnd
    obtain ⟨hk, hrest⟩ := hnd
    cases hp : lookupKV f.parameter_map k with
    | none =>
      have hpe : specPairError f k v = some ⟨k, "is not a valid key"⟩ := by
        simp [specPairError, hp]
      simp [Form.merge_value_map, hp, specMerge, List.find?_cons, hpe]
    | some p =>
      cases hkind : p.value.same_kind_as v with
      | false =>
        have hpe : specPairError f k v = some ⟨k, "has the wrong type"⟩ := by
          simp [specPairError, hp, hkind]
        simp [Form.merge_value_map, hp, hkind, specMerge, List.find?_cons, hpe]
      | true =>
        cases hfr : (p.frozen && ! p.value.same_as v) with
        | true =>
          have hpe : specPairError f k v = some ⟨k, "cannot be modified"⟩ := by
            simp [specPairError, hp, hkind, hfr]
          simp [Form.merge_value_map, hp, hkind, hfr, specMerge,
            List.find?_cons, hpe]
        | false =>
          have hpe : specPairError f k v = none := by
            simp [specPairError, hp, hkind, hfr]
          have hmerge : Form.merge_value_map f ((k, v) :: rest) =
              Form.merge_value_map (f.setValue k v) rest := by
            simp [Form.merge_value_map, hp, hkind, hfr]
          rw [hmerge, ih _ hrest]
          have hcong : ∀ kv' ∈ rest,
              ((fun kv2 : String × Value =>
                  (specPairError (f.setValue k v) kv2.1 kv2.2).isSome) kv') =
              ((fun kv2 : String × Value =>
                  (specPairError f kv2.1 kv2.2).isSome) kv') := by
            intro kv' hmem
            have hne : kv'.1 ≠ k := by
              intro he
              have hmm : kv'.1 ∈ List.map Prod.fst rest :=
                List.mem_map_of_mem Prod.fst hmem
              rw [he] at hmm
              exact hk hmm
            simp [specPairError_setValue kv'.1 kv'.2 hne]
          unfold specMerge
          rw [List.find?_cons_of_neg _ (by simp [hpe]),
            find?_congr_mem hcong]
          cases hfind : rest.find?
              (fun kv2 => (specPairError f kv2.1 kv2.2).isSome) with
          | some kv' =>
            have hmem : kv' ∈ rest := List.mem_of_find?_eq_some hfind
            have hne : kv'.1 ≠ k := by
              intro he
              have hmm : kv'.1 ∈ List.map Prod.fst rest :=
                List.mem_map_of_mem Prod.fst hmem
              rw [he] at hmm
              exact hk hmm
            dsimp only
            rw [specPairError_setValue kv'.1 kv'.2 hne]
          | none =>
            dsimp only
            rfl

example : splitEq "a=b" = ["a", "b"] := by decide
example : splitEq "" = [""] := by decide
example : splitEq "=" = ["", ""] := by decide
example : splitEq "a=b=c" = ["a", "b", "c"] := by decide
example : parseBool "true" = some true := by decide
example : parseI64 "-42" = some (-42) := by decide
example : to_string_map_from_key_val_pairs ["a=1", "a=2"] =
    .error ⟨"a", "duplicate parameter"⟩ := by decide
example : to_string_map_from_key_val_pairs_allowing_duplicates
    ["a=1", "a=2"] = .ok [("a", "2")] := by decide

/-! ### Preservation lemmas for the merge and freeze operations -/

theorem valueOf_setValue (f : Form) (k k' : String) (v : Value) :
    (f.setValue k v).valueOf k' =
      if k' = k then (f.valueOf k').map (fun _ => v) else f.valueOf k' := by
  unfold Form.valueOf Form.setValue
  rw [lookupKV_mapAt]
  by_cases h : k' = k <;> simp [h, Option.map_map]
  rfl

theorem kindOf_setValue_same_kind {f : Form} {k : String} {p : Parameter}
    {v : Value} (hp : lookupKV f.parameter_map k = some p)
    (hkind : p.value.same_kind_as v = true) (k' : String) :
    (f.setValue k v).kindOf k' = f.kindOf k' := by
  unfold Form.kindOf Form.setValue
  rw [lookupKV_mapAt]
  by_cases h : k' = k
  · subst h
    rw [hp]
    simp [Value.same_kind_as_iff_kind.mp hkind]
  · rw [if_neg h]

theorem frozenOf_setValue (f : Form) (k k' : String) (v : Value) :
    (f.setValue k v).frozenOf k' = f.frozenOf k' := by
  unfold Form.frozenOf Form.setValue
  rw [lookupKV_mapAt]
  by_cases h : k' = k <;> simp [h, Option.map_map]
  rfl

theorem aboutOf_setValue (f : Form) (k k' : String) (v : Value) :
    (f.setValue k v).aboutOf k' = f.aboutOf k' := by
  unfold Form.aboutOf Form.setValue
  rw [lookupKV_mapAt]
  by_cases h : k' = k <;> simp [h, Option.map_map]
  rfl

/-- A successful `merge_value_map` never changes a key's kind, description or
frozen flag, and never changes the value stored under a frozen key. -/
theorem merge_value_map_ok_preserves :
    ∀ (items : List (String × Value)) (f g : Form),
      f.merge_value_map items = .ok g →
      ∀ k, g.kindOf k = f.kindOf k ∧ g.frozenOf k = f.frozenOf k ∧
        g.aboutOf k = f.aboutOf k ∧
        (f.frozenOf k = some true → g.valueOf k = f.valueOf k) := by
  intro items
  induction items with
  | nil =>
    intro f g h k
    cases h
    exact ⟨rfl, rfl, rfl, fun _ => rfl⟩
  | cons kv rest ih =>
    intro f g h k
    obtain ⟨k0, v⟩ := kv
    rw [Form.merge_value_map] at h
    split at h
    case h_2 => cases h
    case h_1 p hp =>
      split at h
      case isTrue => cases h
      case isFalse hkind0 =>
        split at h
        case isTrue => cases h
        case isFalse hfr0 =>
          have hkind : p.value.same_kind_as v = true := by
            simpa using hkind0
          have hfr : (p.frozen && ! p.value.same_as v) = false := by
            simpa using hfr0
          have hrec := ih (f.setValue k0 v) g h k
          have hkind2 := kindOf_setValue_same_kind hp hkind k
          have hfz := frozenOf_setValue f k0 k v
          have hab := aboutOf_setValue f k0 k v
          refine ⟨hrec.1.trans hkind2, hrec.2.1.trans hfz,
            hrec.2.2.1.trans hab, ?_⟩
          intro hfrozen
          have hval := hrec.2.2.2 (by rw [hfz]; exact hfrozen)
          rw [hval, valueOf_setValue]
          by_cases hk : k = k0
          · subst hk
            have hpf : p.frozen = true := by
              unfold Form.frozenOf at hfrozen
              rw [hp] at hfrozen
              simpa using hfrozen
            have hsame : p.value.same_as v = true := by
              cases hsa : p.value.same_as v with
              | true => rfl
              | false =>
                rw [Bool.and_eq_false_iff] at hfr
                rcases hfr with hfr | hfr
                · rw [hpf] at hfr; cases hfr
                · rw [hsa] at hfr; simp at hfr
            have hveq : p.value = v := Value.eq_of_same_as hsame
            unfold Form.valueOf
            rw [hp, if_pos rfl]
            simp [hveq]
          · rw [if_neg hk]

theorem valueOf_setFrozen (f : Form) (k k' : String) :
    (f.setFrozen k).valueOf k' = f.valueOf k' := by
  unfold Form.valueOf Form.setFrozen
  rw [lookupKV_mapAt]
  by_cases h : k' = k <;> simp [h, Option.map_map]
  rfl

theorem aboutOf_setFrozen (f : Form) (k k' : String) :
    (f.setFrozen k).aboutOf k' = f.aboutOf k' := by
  unfold Form.aboutOf Form.setFrozen
  rw [lookupKV_mapAt]
  by_cases h : k' = k <;> simp [h, Option.map_map]
  rfl

theorem kindOf_setFrozen (f : Form) (k k' : String) :
    (f.setFrozen k).kindOf k' = f.kindOf k' := by
  unfold Form.kindOf Form.setFrozen
  rw [lookupKV_mapAt]
  by_cases h : k' = k <;> simp [h, Option.map_map]
  rfl

theorem frozenOf_setFrozen (f : Form) (k k' : String) :
    (f.setFrozen k).frozenOf k' =
      if k' = k then (f.frozenOf k').map (fun _ => true)
      else f.frozenOf k' := by
  unfold Form.frozenOf Form.setFrozen
  rw [lookupKV_mapAt]
  by_cases h : k' = k
  · rw [if_pos h, if_pos h]
    cases lookupKV f.parameter_map k' <;> rfl
  · rw [if_neg h, if_neg h]

theorem foldl_freezeStep_valueOf (items : List (String × Value)) :
    ∀ (tf : List String) (g : Form) (k : String),
      (tf.foldl (freezeStep items) g).valueOf k = g.valueOf k ∧
      (tf.foldl (freezeStep items) g).aboutOf k = g.aboutOf k ∧
      (tf.foldl (freezeStep items) g).kindOf k = g.kindOf k := by
  intro tf
  induction tf with
  | nil => intro g k; exact ⟨rfl, rfl, rfl⟩
  | cons k0 tf ih =>
    intro g k
    rw [List.foldl_cons]
    refine ⟨(ih _ k).1.trans ?_, (ih _ k).2.1.trans ?_, (ih _ k).2.2.trans ?_⟩
    all_goals unfold freezeStep
    · by_cases h : (lookupKV items k0).isSome <;>
        simp [h, valueOf_setFrozen]
    · by_cases h : (lookupKV items k0).isSome <;>
        simp [h, aboutOf_setFrozen]
    · by_cases h : (lookupKV items k0).isSome <;>
        simp [h, kindOf_setFrozen]

theorem foldl_freezeStep_frozenOf (items : List (String × Value)) :
    ∀ (tf : List String) (g : Form) (k : String),
      (tf.foldl (freezeStep items) g).frozenOf k =
        (g.frozenOf k).map
          (fun b => b || (tf.contains k && (lookupKV items k).isSome)) := by
  intro tf
  induction tf with
  | nil =>
    intro g k
    cases h : g.frozenOf k <;> simp [h]
  | cons k0 tf ih =>
    intro g k
    rw [List.foldl_cons, ih]
    unfold freezeStep
    by_cases hk : k = k0
    · subst hk
      by_cases hpres : (lookupKV items k).isSome = true
      · rw [if_pos hpres, frozenOf_setFrozen, if_pos rfl]
        cases h : g.frozenOf k <;>
          simp [h, Option.map_map, List.contains_cons, hpres]
      · have hp2 : (lookupKV items k).isSome = false := by
          simpa using hpres
        rw [if_neg hpres]
        cases h : g.frozenOf k <;>
          simp [h, List.contains_cons, hp2]
    · by_cases hpres : (lookupKV items k0).isSome = true
      · rw [if_pos hpres, frozenOf_setFrozen, if_neg hk]
        cases h : g.frozenOf k <;>
          simp [h, List.contains_cons, hk, beq_iff_eq]
      · rw [if_neg hpres]
        cases h : g.frozenOf k <;>
          simp [h, List.contains_cons, hk, beq_iff_eq]

/-! ### Storing a key's own value is a no-op -/

theorem setValue_self {f : Form} {k : String} {v : Value}
    (hnd : (keysOf f.parameter_map).Nodup) (h : f.valueOf k = some v) :
    f.setValue k v = f := by
  obtain ⟨p, hp, hpv⟩ : ∃ p, lookupKV f.parameter_map k = some p ∧
      p.value = v := by
    unfold Form.valueOf at h
    cases hl : lookupKV f.parameter_map k with
    | none => rw [hl] at h; cases h
    | some p =>
      rw [hl] at h
      exact ⟨p, rfl, by simpa using h⟩
  have hmap : mapAt f.parameter_map k (fun p => { p with value := v }) =
      f.parameter_map := by
    apply mapAt_eq_self_of_nodup hnd
    intro w hw
    rw [hp] at hw
    cases hw
    rw [← hpv]
  unfold Form.setValue
  rw [hmap]

theorem keysOf_value_map (f : Form) :
    keysOf f.value_map = keysOf f.parameter_map := by
  unfold Form.value_map keysOf
  rw [List.map_map]
  rfl

/-- Merging back any sublist of a form's own entries succeeds and returns
the form unchanged, provided no frozen entry holds a value that fails
IEEE self-equality (a frozen NaN float). -/
theorem merge_value_map_self_entries (f : Form)
    (hnd : (keysOf f.parameter_map).Nodup)
    (hfr : ∀ kv ∈ f.parameter_map, kv.2.frozen = true →
      kv.2.value.same_as kv.2.value = true) :
    ∀ l : List (String × Parameter), (∀ kv ∈ l, kv ∈ f.parameter_map) →
      f.merge_value_map (l.map (fun kv => (kv.1, kv.2.value))) = .ok f := by
  intro l
  induction l with
  | nil => intro _; rfl
  | cons kv l ih =>
    intro hsub
    obtain ⟨k, p⟩ := kv
    have hmem : (k, p) ∈ f.parameter_map := hsub _ (List.mem_cons_self _ _)
    have hp : lookupKV f.parameter_map k = some p :=
      lookupKV_of_mem_nodup hnd hmem
    have hkind : p.value.same_kind_as p.value = true :=
      Value.same_kind_as_refl p.value
    have hfr2 : (p.frozen && ! p.value.same_as p.value) = false := by
      cases hf : p.frozen with
      | false => rfl
      | true =>
        have := hfr (k, p) hmem hf
        simp [this]
    have hset : f.setValue k p.value = f :=
      setValue_self hnd (by unfold Form.valueOf; rw [hp]; rfl)
    rw [List.map_cons, Form.merge_value_map, hp]
    dsimp only
    rw [hkind, hfr2]
    simp only [Bool.not_true, Bool.false_eq_true, if_false]
    rw [hset]
    exact ih (fun kv2 hkv2 => hsub kv2 (List.mem_cons_of_mem _ hkv2))

/-! ### Lemmas about the key=value argument parser -/

theorem list_length_two {α : Type} {l : List α} (h : l.length = 2) :
    ∃ x y, l = [x, y] := by
  cases l with
  | nil =>
    exfalso
    simp only [List.length_nil] at h
    omega
  | cons x t =>
    cases t with
    | nil =>
      exfalso
      simp only [List.length_cons, List.length_nil] at h
      omega
    | cons y t2 =>
      cases t2 with
      | nil => exact ⟨x, y, rfl⟩
      | cons z t3 =>
        exfalso
        simp only [List.length_cons] at h
        omega

theorem lr_ok_shape {a l r : String}
    (h : left_and_right_hand_side a = .ok (l, r)) : splitEq a = [l, r] := by
  unfold left_and_right_hand_side at h
  cases hs : splitEq a with
  | nil => rw [hs] at h; cases h
  | cons x t =>
    cases t with
    | nil => rw [hs] at h; cases h
    | cons y t2 =>
      cases t2 with
      | nil =>
        rw [hs] at h
        cases h
        rfl
      | cons z t3 => rw [hs] at h; cases h

theorem lr_error_of_length {a : String} (h : (splitEq a).length ≠ 2) :
    left_and_right_hand_side a = .error ⟨a, "is a badly formed argument"⟩ := by
  unfold left_and_right_hand_side
  cases hs : splitEq a with
  | nil => rfl
  | cons x t =>
    cases t with
    | nil => rfl
    | cons y t2 =>
      cases t2 with
      | nil => exact absurd (show (splitEq a).length = 2 by rw [hs]; rfl) h
      | cons z t3 => rfl

theorem aux_ok_wf (d : Bool) :
    ∀ (args : List String) (acc m : List (String × String)),
      toStringMapAux d args acc = .ok m →
      ∀ a ∈ args, (splitEq a).length = 2 := by
  intro args
  induction args with
  | nil => intro acc m _ a ha; cases ha
  | cons b args ih =>
    intro acc m h a ha
    rw [toStringMapAux] at h
    split at h
    case h_1 e heq => cases h
    case h_2 k v heq =>
      split at h
      case isTrue => cases h
      case isFalse =>
        rcases List.mem_cons.mp ha with he | hm
        · subst he
          rw [lr_ok_shape heq]
          rfl
        · exact ih _ _ h a hm

theorem aux_true_lastAssign :
    ∀ (args : List String) (acc : List (String × String)),
      (∀ a ∈ args, (splitEq a).length = 2) →
      ∃ m, toStringMapAux true args acc = .ok m ∧
        ∀ k, lookupKV m k =
          (args.filterMap
            (fun a => (left_and_right_hand_side a).toOption)).foldl
            (fun st kv => if kv.1 = k then some kv.2 else st)
            (lookupKV acc k) := by
  intro args
  induction args with
  | nil =>
    intro acc _
    exact ⟨acc, rfl, fun k => rfl⟩
  | cons b args ih =>
    intro acc hwf
    obtain ⟨l, r, hs⟩ := list_length_two (hwf b (List.mem_cons_self b args))
    have hlr : left_and_right_hand_side b = .ok (l, r) := by
      unfold left_and_right_hand_side
      rw [hs]
    obtain ⟨m, hm, hlast⟩ := ih (insertKV acc l r)
      (fun x hx => hwf x (List.mem_cons_of_mem b hx))
    refine ⟨m, ?_, ?_⟩
    · rw [toStringMapAux, hlr]
      exact hm
    · intro k
      rw [hlast k, lookupKV_insertKV]
      have hfm : (b :: args).filterMap
          (fun a => (left_and_right_hand_side a).toOption) =
          (l, r) :: args.filterMap
            (fun a => (left_and_right_hand_side a).toOption) := by
        rw [List.filterMap_cons_some (by rw [hlr]; rfl)]
      rw [hfm, List.foldl_cons]
      by_cases hlk : l = k
      · subst hlk
        simp
      · have hkl : ¬ k = l := fun he => hlk he.symm
        simp [hlk, hkl]

theorem aux_false_dup :
    ∀ (args : List String) (acc : List (String × String)),
      (∀ a ∈ args, (splitEq a).length = 2) →
      (keysOf acc).Nodup →
      (((keysOf acc ++ parsedKeys args).Nodup →
          ∃ m, toStringMapAux false args acc = .ok m) ∧
       (¬ (keysOf acc ++ parsedKeys args).Nodup →
          ∃ k2, toStringMapAux false args acc =
              .error ⟨k2, "duplicate parameter"⟩ ∧
            2 ≤ (keysOf acc ++ parsedKeys args).count k2)) := by
  intro args
  induction args with
  | nil =>
    intro acc _ hnd
    constructor
    · intro _
      exact ⟨acc, rfl⟩
    · intro hcon
      exact absurd (by simpa [parsedKeys] using hnd) hcon
  | cons b args ih =>
    intro acc hwf hnd
    obtain ⟨l, r, hs⟩ := list_length_two (hwf b (List.mem_cons_self b args))
    have hlr : left_and_right_hand_side b = .ok (l, r) := by
      unfold left_and_right_hand_side
      rw [hs]
    have hpk : parsedKeys (b :: args) = l :: parsedKeys args := by
      unfold parsedKeys
      rw [List.filterMap_cons_some (by rw [hlr]; rfl)]
      rfl
    cases hpres : lookupKV acc l with
    | some w =>
      have haux : toStringMapAux false (b :: args) acc =
          .error ⟨l, "duplicate parameter"⟩ := by
        rw [toStringMapAux, hlr]
        dsimp only
        rw [if_pos (by simp [hpres])]
      have hlmem : l ∈ keysOf acc := mem_keysOf_of_lookupKV hpres
      constructor
      · intro hok
        exfalso
        rw [hpk, List.nodup_append] at hok
        exact hok.2.2 hlmem (List.mem_cons_self l _)
      · intro _
        refine ⟨l, haux, ?_⟩
        rw [hpk, List.count_append]
        have h1 : 1 ≤ (keysOf acc).count l := count_pos_of_mem hlmem
        have h2 : 1 ≤ ((l :: parsedKeys args).count l) := by
          rw [List.count_cons_self]
          omega
        omega
    | none =>
      have hnotmem : l ∉ keysOf acc := (lookupKV_eq_none_iff acc l).mp hpres
      have hins : insertKV acc l r = acc ++ [(l, r)] :=
        insertKV_of_not_found r hpres
      have haux : toStringMapAux false (b :: args) acc =
          toStringMapAux false args (insertKV acc l r) := by
        rw [toStringMapAux, hlr]
        dsimp only
        rw [if_neg (by simp [hpres])]
      have hknd : (keysOf (insertKV acc l r)).Nodup := by
        rw [hins]
        unfold keysOf
        rw [List.map_append, List.nodup_append]
        refine ⟨hnd, List.nodup_singleton l, ?_⟩
        intro x hx hx2
        simp at hx2
        subst hx2
        exact hnotmem hx
      have hlist : keysOf (insertKV acc l r) ++ parsedKeys args =
          keysOf acc ++ parsedKeys (b :: args) := by
        rw [hins, hpk]
        unfold keysOf
        rw [List.map_append, List.append_assoc]
        rfl
      have hrec := ih (insertKV acc l r)
        (fun x hx => hwf x (List.mem_cons_of_mem b hx)) hknd
      rw [hlist] at hrec
      constructor
      · intro hok
        obtain ⟨m, hm⟩ := hrec.1 hok
        exact ⟨m, haux.trans hm⟩
      · intro hcon
        obtain ⟨k2, hk2, hcnt⟩ := hrec.2 hcon
        exact ⟨k2, haux.trans hk2, hcnt⟩

theorem aux_malformed :
    ∀ (pre : List String) (acc : List (String × String)) (d : Bool)
      (a : String) (post : List String),
      (∀ b ∈ pre, (splitEq b).length = 2) →
      (splitEq a).length ≠ 2 →
      (d = true ∨ (keysOf acc ++ parsedKeys pre).Nodup) →
      toStringMapAux d (pre ++ a :: post) acc =
        .error ⟨a, "is a badly formed argument"⟩ := by
  intro pre
  induction pre with
  | nil =>
    intro acc d a post _ hbad _
    rw [List.nil_append, toStringMapAux, lr_error_of_length hbad]
  | cons b pre ih =>
    intro acc d a post hwf hbad hside
    obtain ⟨l, r, hs⟩ := list_length_two (hwf b (List.mem_cons_self b pre))
    have hlr : left_and_right_hand_side b = .ok (l, r) := by
      unfold left_and_right_hand_side
      rw [hs]
    have hpk : parsedKeys (b :: pre) = l :: parsedKeys pre := by
      unfold parsedKeys
      rw [List.filterMap_cons_some (by rw [hlr]; rfl)]
      rfl
    rw [List.cons_append, toStringMapAux, hlr]
    dsimp only
    have hwf2 : ∀ x ∈ pre, (splitEq x).length = 2 :=
      fun x hx => hwf x (List.mem_cons_of_mem b hx)
    rcases hside with hd | hnd
    · subst hd
      rw [if_neg (by simp)]
      exact ih _ true a post hwf2 hbad (Or.inl rfl)
    · cases d with
      | true =>
        rw [if_neg (by simp)]
        exact ih _ true a post hwf2 hbad (Or.inl rfl)
      | false =>
        have hlmem : l ∉ keysOf acc := by
          rw [hpk, List.nodup_append] at hnd
          intro hmem
          exact hnd.2.2 hmem (List.mem_cons_self l _)
        have hpres : lookupKV acc l = none :=
          (lookupKV_eq_none_iff acc l).mpr hlmem
        rw [if_neg (by simp [hpres])]
        have hins : insertKV acc l r = acc ++ [(l, r)] :=
          insertKV_of_not_found r hpres
        apply ih _ false a post hwf2 hbad
        right
        rw [hins]
        unfold keysOf
        rw [List.map_append, List.append_assoc]
        rw [hpk] at hnd
        exact hnd

/-! ### Claim theorems -/

/-- C1: `merge_value_map` processes each (key, new value) pair by the spec's
three sequential checks — "is not a valid key" for an undeclared key, "has
the wrong type" for a kind mismatch, "cannot be modified" for a frozen
parameter receiving a not-`same_as` value — otherwise stores the value, and
it returns a `Form` (not an error) exactly when no pair fails: the source
merge loop coincides with the spec-side `specMerge`. -/
theorem c1_merge_refines_pairwise_spec (f : Form)
    (items : List (String × Value)) (hnd : (items.map Prod.fst).Nodup) :
    f.merge_value_map items = specMerge f items :=
  merge_value_map_eq_specMerge items f hnd

/-- Witness for C1 on a concrete form and update map. -/
theorem c1_witness :
    ([("a", Value.I 7)].map Prod.fst).Nodup ∧
    fixtureForm.merge_value_map [("a", Value.I 7)] =
      specMerge fixtureForm [("a", Value.I 7)] :=
  ⟨by decide, c1_merge_refines_pairwise_spec fixtureForm
    [("a", Value.I 7)] (by decide)⟩

/-- C2 (counterexample): an update map that contains a kind-mismatched pair
need not fail with the kind-mismatch error — here the undeclared key "zz"
is reached first, so the merge fails with "is not a valid key" even though
("a", B true) mismatches the declared Int kind of "a". -/
theorem c2_counterexample :
    fixtureForm.merge_value_map [("zz", Value.B true), ("a", Value.B true)] =
      .error ⟨"zz", "is not a valid key"⟩ := by decide

/-- C2 (amended): if the update map contains a pair whose value kind differs
from its declared kind, the merge always fails with some `ConfigError` (so
no `Form` is returned and no partially-updated state is observable), and it
fails with the kind-mismatch error whenever the mismatching pair is the
first failing pair in processing order. -/
theorem c2_kind_mismatch_fails (f : Form) (items : List (String × Value))
    (k : String) (v : Value) (p : Parameter)
    (hnd : (items.map Prod.fst).Nodup)
    (hmem : (k, v) ∈ items)
    (hdecl : lookupKV f.parameter_map k = some p)
    (hkind : p.value.same_kind_as v = false) :
    (∃ e, f.merge_value_map items = .error e) ∧
    (items.find? (fun kv => (specPairError f kv.1 kv.2).isSome) =
        some (k, v) →
      f.merge_value_map items = .error ⟨k, "has the wrong type"⟩) := by
  have hspec := merge_value_map_eq_specMerge items f hnd
  have hpe : specPairError f k v = some ⟨k, "has the wrong type"⟩ := by
    simp [specPairError, hdecl, hkind]
  constructor
  · rw [hspec]
    unfold specMerge
    cases hfind : items.find?
        (fun kv => (specPairError f kv.1 kv.2).isSome) with
    | some kv => exact ⟨_, rfl⟩
    | none =>
      exfalso
      have hall := List.find?_eq_none.mp hfind (k, v) hmem
      rw [hpe] at hall
      exact hall rfl
  · intro hfind
    rw [hspec]
    unfold specMerge
    rw [hfind]
    dsimp only
    rw [hpe]
    rfl

/-- Witness for C2 on a concrete form and update map. -/
theorem c2_witness :
    ([("a", Value.B true)].map Prod.fst).Nodup ∧
    ("a", Value.B true) ∈ [("a", Value.B true)] ∧
    (∃ e, fixtureForm.merge_value_map [("a", Value.B true)] = .error e) :=
  ⟨by decide, by decide,
    (c2_kind_mismatch_fails fixtureForm [("a", Value.B true)] "a"
      (Value.B true) ⟨Value.I 1, "first", false⟩ (by decide) (by decide)
      (by decide) (by decide)).1⟩

/-- C4 (counterexample): merging a value of a *different kind* into a frozen
key fails with "has the wrong type", not with the frozen-violation error
"cannot be modified" that the claim promises for every different value. -/
theorem c4_counterexample :
    (fixtureForm.freeze "a").merge_value_map [("a", Value.B true)] =
      .error ⟨"a", "has the wrong type"⟩ := by decide

/-- C4 (amended): after freezing a declared key, merging a same-kind value
that is not `same_as` the stored one fails with the frozen-violation error
"cannot be modified"; a different-kind value fails with "has the wrong
type"; and a `same_as` value succeeds and leaves the form unchanged
(idempotent). -/
theorem c4_frozen_merge_behavior (f : Form) (k : String) (p : Parameter)
    (v : Value) (hnd : (keysOf f.parameter_map).Nodup)
    (hdecl : lookupKV f.parameter_map k = some p) :
    (f.freeze k).merge_value_map [(k, v)] =
      (if p.value.same_kind_as v = false then
        .error ⟨k, "has the wrong type"⟩
       else if p.value.same_as v = false then
        .error ⟨k, "cannot be modified"⟩
       else .ok (f.freeze k)) := by
  have hlook : lookupKV (f.freeze k).parameter_map k =
      some ⟨p.value, p.about, true⟩ := by
    show lookupKV (mapAt f.parameter_map k
      (fun p2 => { p2 with frozen := true })) k = _
    rw [lookupKV_mapAt, if_pos rfl, hdecl]
    rfl
  rw [Form.merge_value_map, hlook]
  dsimp only
  cases hkind : p.value.same_kind_as v with
  | false => simp [hkind]
  | true =>
    cases hsame : p.value.same_as v with
    | false => simp [hkind, hsame]
    | true =>
      have hveq : p.value = v := Value.eq_of_same_as hsame
      have hndf : (keysOf (f.freeze k).parameter_map).Nodup := by
        show (keysOf (mapAt f.parameter_map k
          (fun p2 => { p2 with frozen := true }))).Nodup
        rw [keysOf_mapAt]
        exact hnd
      have hvof : (f.freeze k).valueOf k = some v := by
        unfold Form.valueOf
        rw [hlook]
        simp [hveq]
      have hset : (f.freeze k).setValue k v = f.freeze k :=
        setValue_self hndf hvof
      simp [hkind, hsame, hset, Form.merge_value_map]

/-- Witness for C4: merging the identical value into a frozen key succeeds
and returns the form unchanged. -/
theorem c4_witness :
    (keysOf fixtureForm.parameter_map).Nodup ∧
    lookupKV fixtureForm.parameter_map "a" =
      some ⟨Value.I 1, "first", false⟩ ∧
    (fixtureForm.freeze "a").merge_value_map [("a", Value.I 1)] =
      .ok (fixtureForm.freeze "a") :=
  ⟨by decide, by decide,
    c4_frozen_merge_behavior fixtureForm "a" ⟨Value.I 1, "first", false⟩
      (Value.I 1) (by decide) (by decide)⟩

/-- C10 (counterexample): a form holding a frozen float parameter whose
value is NaN cannot merge its own snapshot back: IEEE `==` makes the stored
NaN not `same_as` itself, so the frozen check fails with "cannot be
modified". -/
theorem c10_counterexample :
    nanForm.merge_value_map nanForm.value_map =
      .error ⟨"x", "cannot be modified"⟩ := by decide

/-- C10 (amended): for every form whose frozen parameters all hold values
that are `same_as` themselves (every form without a frozen NaN float),
merging the snapshot `value_map()` back into the form succeeds and returns
the form itself, so every key keeps its value, description and frozen
flag. -/
theorem c10_merge_own_value_map (f : Form)
    (hnd : (keysOf f.parameter_map).Nodup)
    (hfr : ∀ kv ∈ f.parameter_map, kv.2.frozen = true →
      kv.2.value.same_as kv.2.value = true) :
    f.merge_value_map f.value_map = .ok f :=
  merge_value_map_self_entries f hnd hfr f.parameter_map (fun _ h => h)

/-- Witness for C10 on a concrete form with a frozen (non-NaN) key. -/
theorem c10_witness :
    (keysOf (fixtureForm.freeze "a").parameter_map).Nodup ∧
    (∀ kv ∈ (fixtureForm.freeze "a").parameter_map, kv.2.frozen = true →
      kv.2.value.same_as kv.2.value = true) ∧
    (fixtureForm.freeze "a").merge_value_map
      (fixtureForm.freeze "a").value_map = .ok (fixtureForm.freeze "a") :=
  ⟨by decide, by decide, c10_merge_own_value_map _ (by decide) (by decide)⟩

/-- C5: every operation of the `Form` — declaration via `item`, `freeze`,
and the three merge entry points — preserves the invariants that a key's
value kind never changes after declaration and that a frozen key's value
never changes after freezing (for `item`, which *re-declares* its key, the
invariants are stated for all other keys, matching the spec's allowance
that a declaration may replace an existing key with a new kind). -/
theorem c5_operations_preserve_invariants (f : Form)
    (items : List (String × Value)) (dict : List (String × String))
    (tf : List String) (k0 : String) (v0 : Value) (ab : String) :
    (∀ g, f.merge_value_map items = .ok g → ∀ k,
      g.kindOf k = f.kindOf k ∧
      (f.frozenOf k = some true → g.valueOf k = f.valueOf k)) ∧
    (∀ g, f.merge_value_map_freezing items tf = .ok g → ∀ k,
      g.kindOf k = f.kindOf k ∧
      (f.frozenOf k = some true → g.valueOf k = f.valueOf k)) ∧
    (∀ g, f.merge_string_map dict = .ok g → ∀ k,
      g.kindOf k = f.kindOf k ∧
      (f.frozenOf k = some true → g.valueOf k = f.valueOf k)) ∧
    (∀ k, (f.freeze k0).kindOf k = f.kindOf k ∧
      (f.freeze k0).valueOf k = f.valueOf k) ∧
    (∀ k, k ≠ k0 →
      (f.item k0 v0 ab).kindOf k = f.kindOf k ∧
      (f.item k0 v0 ab).valueOf k = f.valueOf k ∧
      (f.item k0 v0 ab).frozenOf k = f.frozenOf k) := by
  refine ⟨?_, ?_, ?_, ?_, ?_⟩
  · intro g h k
    have hp := merge_value_map_ok_preserves items f g h k
    exact ⟨hp.1, hp.2.2.2⟩
  · intro g h k
    unfold Form.merge_value_map_freezing at h
    cases hm : f.merge_value_map items with
    | error e => rw [hm] at h; cases h
    | ok r =>
      rw [hm] at h
      dsimp only at h
      rw [Except.ok.injEq] at h
      subst h
      have hpres := merge_value_map_ok_preserves items f r hm k
      have hval := (foldl_freezeStep_valueOf items tf r k).1
      have hkind := (foldl_freezeStep_valueOf items tf r k).2.2
      exact ⟨hkind.trans hpres.1, fun hf => hval.trans (hpres.2.2.2 hf)⟩
  · intro g h k
    unfold Form.merge_string_map at h
    cases hs : f.string_map_to_value_map dict with
    | error e => rw [hs] at h; cases h
    | ok items2 =>
      rw [hs] at h
      dsimp only at h
      have hp := merge_value_map_ok_preserves items2 f g h k
      exact ⟨hp.1, hp.2.2.2⟩
  · intro k
    exact ⟨kindOf_setFrozen f k0 k, valueOf_setFrozen f k0 k⟩
  · intro k hk
    have hl : lookupKV (f.item k0 v0 ab).parameter_map k =
        lookupKV f.parameter_map k := by
      show lookupKV (insertKV f.parameter_map k0 ⟨v0, ab, false⟩) k = _
      rw [lookupKV_insertKV, if_neg hk]
    refine ⟨?_, ?_, ?_⟩
    · unfold Form.kindOf
      rw [hl]
    · unfold Form.valueOf
      rw [hl]
    · unfold Form.frozenOf
      rw [hl]

/-- Witness for C5: a successful value-map merge on a concrete form keeps
the declared kind and preserves the (here: absent) frozen values. -/
theorem c5_witness :
    fixtureForm.merge_value_map [("a", Value.I 2)] = .ok fixtureFormMerged ∧
    (fixtureFormMerged.kindOf "a" = fixtureForm.kindOf "a" ∧
      (fixtureForm.frozenOf "a" = some true →
        fixtureFormMerged.valueOf "a" = fixtureForm.valueOf "a")) :=
  ⟨by decide,
    (c5_operations_preserve_invariants fixtureForm [("a", Value.I 2)] []
      [] "a" (Value.I 0) "").1 fixtureFormMerged (by decide) "a"⟩

/-- C6: `merge_value_map_freezing` first performs `merge_value_map`
(propagating its error unchanged), and on success returns a form with the
merged values and descriptions in which a key is frozen exactly when it was
frozen before, or it belongs to the freeze set *and* occurs in the update
map; keys in the freeze set but absent from the updates, and keys outside
the freeze set, keep their prior frozen state. -/
theorem c6_freezing_frame (f : Form) (items : List (String × Value))
    (tf : List String) :
    (∀ e, f.merge_value_map items = .error e →
      f.merge_value_map_freezing items tf = .error e) ∧
    (∀ g, f.merge_value_map items = .ok g →
      ∃ h2, f.merge_value_map_freezing items tf = .ok h2 ∧
        ∀ k, h2.valueOf k = g.valueOf k ∧ h2.aboutOf k = g.aboutOf k ∧
          h2.frozenOf k = (f.frozenOf k).map
            (fun b => b || (tf.contains k && (lookupKV items k).isSome))) := by
  constructor
  · intro e he
    unfold Form.merge_value_map_freezing
    rw [he]
  · intro g hg
    unfold Form.merge_value_map_freezing
    rw [hg]
    refine ⟨_, rfl, ?_⟩
    intro k
    have hfp := (merge_value_map_ok_preserves items f g hg k).2.1
    refine ⟨(foldl_freezeStep_valueOf items tf g k).1,
      (foldl_freezeStep_valueOf items tf g k).2.1, ?_⟩
    rw [foldl_freezeStep_frozenOf items tf g k, hfp]

/-- Witness for C6: freezing set ["a", "b"] with an update touching only
"a" freezes "a" and leaves "b" unfrozen. -/
theorem c6_witness :
    fixtureForm.merge_value_map [("a", Value.I 2)] = .ok fixtureFormMerged ∧
    ∃ h2, fixtureForm.merge_value_map_freezing [("a", Value.I 2)]
        ["a", "b"] = .ok h2 ∧
      ∀ k, h2.valueOf k = fixtureFormMerged.valueOf k ∧
        h2.aboutOf k = fixtureFormMerged.aboutOf k ∧
        h2.frozenOf k = (fixtureForm.frozenOf k).map
          (fun b => b || ((["a", "b"] : List String).contains k &&
            (lookupKV [("a", Value.I 2)] k).isSome)) :=
  ⟨by decide, (c6_freezing_frame fixtureForm [("a", Value.I 2)]
    ["a", "b"]).2 fixtureFormMerged (by decide)⟩

/-- C3 (counterexample): the parser accepts "=1", whose left-hand part is
empty — the claim requires both parts to be non-empty, but the code only
checks that the split has exactly two pieces. -/
theorem c3_counterexample :
    to_string_map_from_key_val_pairs_general ["=1"] false =
      .ok [("", "1")] := by decide

/-- C3 (amended): under either duplicate setting an element is accepted
exactly when it contains exactly one `=` (its split has exactly two parts,
which may be empty; left part key, right part value), and an element with
zero or more than one `=` fails with "is a badly formed argument" whenever
it is reached — always when duplicates are allowed, and provided no
duplicate key precedes it when they are not. -/
theorem c3_argument_shape :
    (∀ (args : List String) (d : Bool) (m : List (String × String)),
      to_string_map_from_key_val_pairs_general args d = .ok m →
      ∀ a ∈ args, (splitEq a).length = 2) ∧
    (∀ args : List String, (∀ a ∈ args, (splitEq a).length = 2) →
      ∃ m, to_string_map_from_key_val_pairs_general args true = .ok m) ∧
    (∀ (pre : List String) (a : String) (post : List String) (d : Bool),
      (∀ b ∈ pre, (splitEq b).length = 2) → (splitEq a).length ≠ 2 →
      (d = true ∨ (parsedKeys pre).Nodup) →
      to_string_map_from_key_val_pairs_general (pre ++ a :: post) d =
        .error ⟨a, "is a badly formed argument"⟩) := by
  refine ⟨?_, ?_, ?_⟩
  · intro args d m h a ha
    exact aux_ok_wf d args [] m h a ha
  · intro args hwf
    obtain ⟨m, hm, _⟩ := aux_true_lastAssign args [] hwf
    exact ⟨m, hm⟩
  · intro pre a post d hwf hbad hside
    apply aux_malformed pre [] d a post hwf hbad
    rcases hside with hd | hnd
    · exact Or.inl hd
    · exact Or.inr hnd

/-- Witness for C3: a malformed element after a well-formed one fails with
the malformed-argument error. -/
theorem c3_witness :
    (∀ b ∈ ["x=1"], (splitEq b).length = 2) ∧
    (splitEq "a").length ≠ 2 ∧
    to_string_map_from_key_val_pairs_general (["x=1"] ++ "a" :: ["b=2"])
      false = .error ⟨"a", "is a badly formed argument"⟩ :=
  ⟨by decide, by decide,
    c3_argument_shape.2.2 ["x=1"] "a" ["b=2"] false (by decide) (by decide)
      (Or.inr (by decide))⟩

/-- C7: over well-formed `key=value` elements, the parser with
`allow_duplicates = false` fails with "duplicate parameter" exactly when
some key occurs twice (the error names a key occurring at least twice),
succeeds when all keys are distinct, and with `allow_duplicates = true`
always succeeds, binding every key to the value of its last occurrence. -/
theorem c7_duplicate_handling (args : List String)
    (hwf : ∀ a ∈ args, (splitEq a).length = 2) :
    (¬ (parsedKeys args).Nodup →
      ∃ k, to_string_map_from_key_val_pairs_general args false =
          .error ⟨k, "duplicate parameter"⟩ ∧
        2 ≤ (parsedKeys args).count k) ∧
    ((parsedKeys args).Nodup →
      ∃ m, to_string_map_from_key_val_pairs_general args false = .ok m) ∧
    (∃ m, to_string_map_from_key_val_pairs_general args true = .ok m ∧
      ∀ k, lookupKV m k = lastAssignment args k) := by
  have hdup := aux_false_dup args [] hwf List.nodup_nil
  refine ⟨?_, ?_, ?_⟩
  · intro hcon
    exact hdup.2 hcon
  · intro hok
    exact hdup.1 hok
  · obtain ⟨m, hm, hlast⟩ := aux_true_lastAssign args [] hwf
    refine ⟨m, hm, ?_⟩
    intro k
    rw [hlast k]
    rfl

/-- Witness for C7 on the spec's own example `["a=1", "a=2"]`. -/
theorem c7_witness :
    (∀ a ∈ ["a=1", "a=2"], (splitEq a).length = 2) ∧
    (∃ k, to_string_map_from_key_val_pairs_general ["a=1", "a=2"] false =
        .error ⟨k, "duplicate parameter"⟩ ∧
      2 ≤ (parsedKeys ["a=1", "a=2"]).count k) :=
  ⟨by decide,
    (c7_duplicate_handling ["a=1", "a=2"] (by decide)).1 (by decide)⟩

/-- C8: in the per-kind parsing used by `merge_string_map`, a Bool-kind key
accepts exactly the strings "true" and "false" (case-sensitively, yielding
those values) and fails with "is a badly formed bool" on anything else; a
String-kind key always succeeds, storing the raw string verbatim, and no
parse outcome ever carries the reason "is a badly formed string". -/
theorem c8_bool_and_string_parsing (b : Bool) (t ab : String)
    (fr frs : Bool) (p : Parameter) (k s : String) :
    (Form.parseForKey ⟨Value.B b, ab, fr⟩ k s =
      (if s = "true" then .ok (Value.B true)
       else if s = "false" then .ok (Value.B false)
       else .error ⟨k, "is a badly formed bool"⟩)) ∧
    (Form.parseForKey ⟨Value.S t, ab, frs⟩ k s = .ok (Value.S s)) ∧
    (∀ e, Form.parseForKey p k s = .error e →
      e.why ≠ "is a badly formed string") := by
  refine ⟨?_, rfl, ?_⟩
  · unfold Form.parseForKey parseBool
    by_cases h1 : s = "true"
    · simp [h1]
    · by_cases h2 : s = "false" <;> simp [h1, h2]
  · intro e he
    unfold Form.parseForKey at he
    cases hv : p.value with
    | B b2 =>
      rw [hv] at he
      dsimp only at he
      cases hpb : parseBool s with
      | some x => rw [hpb] at he; cases he
      | none =>
        rw [hpb] at he
        cases he
        show ("is a badly formed bool" : String) ≠ "is a badly formed string"
        decide
    | I i2 =>
      rw [hv] at he
      dsimp only at he
      cases hpi : parseI64 s with
      | some x => rw [hpi] at he; cases he
      | none =>
        rw [hpi] at he
        cases he
        show ("is a badly formed int" : String) ≠ "is a badly formed string"
        decide
    | F f2 =>
      rw [hv] at he
      dsimp only at he
      cases hpf : parseF64 s with
      | some x => rw [hpf] at he; cases he
      | none =>
        rw [hpf] at he
        cases he
        show ("is a badly formed float" : String) ≠ "is a badly formed string"
        decide
    | S s2 =>
      rw [hv] at he
      dsimp only at he
      cases he

/-- Witness for C8 at concrete parses. -/
theorem c8_witness :
    Form.parseForKey ⟨Value.B true, "", false⟩ "k" "yes" =
      .error ⟨"k", "is a badly formed bool"⟩ ∧
    Form.parseForKey ⟨Value.S "", "", false⟩ "k" "data" =
      .ok (Value.S "data") ∧
    ("is a badly formed int" : String) ≠ "is a badly formed string" :=
  ⟨(c8_bool_and_string_parsing true "" "" false false
      ⟨Value.I 0, "", false⟩ "k" "yes").1,
   (c8_bool_and_string_parsing true "" "" false false
      ⟨Value.I 0, "", false⟩ "k" "data").2.1,
   (c8_bool_and_string_parsing true "" "" false false
      ⟨Value.I 0, "", false⟩ "k" "x").2.2 ⟨"k", "is a badly formed int"⟩
      (by decide)⟩
